import Mathlib

set_option linter.unusedVariables false

/-!
Shallow embedding of the langar_db ledger backend (server.js and its two
unnamed variants).  JSON objects are modelled as association lists with
String keys; JS numbers that the handlers treat as integers are modelled
as Int; a request field that fails `Number(...)` coercion (NaN) is
modelled as `none`.  Each mutating handler returns the document that ends
up on disk together with its response: handlers only call `writeJSON` on
the success path, so every error path returns the incoming document
unchanged.
-/

/-- Association map with string keys, the embedding of a JSON object.
Lookup and update act on the first binding of a key, matching JS object
semantics (where keys are unique). -/
abbrev AMap (α : Type) : Type := List (String × α)

def getVal {α : Type} : AMap α → String → Option α
  | [], _ => none
  | (k2, v) :: rest, k => if k2 = k then some v else getVal rest k

def setVal {α : Type} : AMap α → String → α → AMap α
  | [], k, v => [(k, v)]
  | (k2, v2) :: rest, k, v =>
    if k2 = k then (k, v) :: rest else (k2, v2) :: setVal rest k v

def delVal {α : Type} : AMap α → String → AMap α
  | [], _ => []
  | (k2, v2) :: rest, k => if k2 = k then rest else (k2, v2) :: delVal rest k

def keysOf {α : Type} (m : AMap α) : List String := m.map Prod.fst

/-- JS truthiness of an optional string value (`undefined` and `""` are
falsy, every other string is truthy). -/
def truthyOpt : Option String → Bool
  | some s => s ≠ ""
  | none => false

/-- The source's `monthNameToNumber` helper (fixed 12-entry calendar map,
`null` for anything else). -/
def monthNameToNumber (m : String) : Option Nat :=
  if m = "January" then some 1
  else if m = "February" then some 2
  else if m = "March" then some 3
  else if m = "April" then some 4
  else if m = "May" then some 5
  else if m = "June" then some 6
  else if m = "July" then some 7
  else if m = "August" then some 8
  else if m = "September" then some 9
  else if m = "October" then some 10
  else if m = "November" then some 11
  else if m = "December" then some 12
  else none

def monthNames : List String :=
  ["January", "February", "March", "April", "May", "June",
   "July", "August", "September", "October", "November", "December"]

/-- The source's `monthNumberToName` helper (`monthNames[n - 1] || null`). -/
def monthNumberToName (n : Nat) : Option String := monthNames[n - 1]?

/-! ## Attendance ledger: year → month name → day → rollNo → marker -/

abbrev RollMap : Type := AMap String
abbrev DayMap : Type := AMap RollMap
abbrev MonMap : Type := AMap DayMap
abbrev AttDoc : Type := AMap MonMap

/-- The `attendance.forEach` loop of `/update-attendance`: mark each
listed roll number as `"present"` in the day node. -/
def markRolls (dm : RollMap) (rolls : List String) : RollMap :=
  rolls.foldl (fun acc r => setVal acc r "present") dm

/-- The read-ensure-mutate-write skeleton shared by the attendance
mutators: ensure the `year → monthN → day` path (a missing node defaults
to `{}`), transform the day node with `g`, and write the result back. -/
def attMutCore (doc : AttDoc) (year monthN day : String) (g : RollMap → RollMap) : AttDoc :=
  let ym : MonMap := (getVal doc year).getD []
  let mm : DayMap := (getVal ym monthN).getD []
  let dm : RollMap := (getVal mm day).getD []
  setVal doc year (setVal ym monthN (setVal mm day (g dm)))

/-- The `/update-attendance` handler.  Validates the fields and the month
name, creates the `year → monthName → day` path if absent, then marks each
roll number present and persists.  Second component is the success flag. -/
def updateAttendance (doc : AttDoc) (year month day : String) (rolls : List String) :
    AttDoc × Bool :=
  if year = "" ∨ month = "" ∨ day = "" then (doc, false)
  else
    match monthNameToNumber month with
    | none => (doc, false)
    | some mn =>
      (attMutCore doc year ((monthNumberToName mn).getD "") day
        (fun dm => markRolls dm rolls), true)

/-- The optional-chaining read `data[0]?.[year]?.[month]?.[String(day)]`. -/
def attDayLookup (doc : AttDoc) (year month day : String) : Option RollMap :=
  (getVal doc year).bind (fun ym => (getVal ym month).bind (fun mm => getVal mm day))

def attLookup (doc : AttDoc) (year month day roll : String) : Option String :=
  (attDayLookup doc year month day).bind (fun dm => getVal dm roll)

/-- A roll number counts as present when its entry under the date node is
truthy (the handlers only ever store the truthy marker `"present"`). -/
def isPresent (doc : AttDoc) (year month day roll : String) : Bool :=
  truthyOpt (attLookup doc year month day roll)

/-- The `attendance.forEach` loop of `/delete-attendance`: delete each
supplied roll number whose entry is truthy and record it in `deleted`. -/
def delLoop : RollMap × List String → List String → RollMap × List String
  | acc, [] => acc
  | (dm, del), r :: rest =>
    if truthyOpt (getVal dm r) then delLoop (delVal dm r, del ++ [r]) rest
    else delLoop (dm, del) rest

/-- Write the mutated day node back into the tree (the JS code mutates
`dateAttendance` in place inside the shared structure). -/
def attDaySet (doc : AttDoc) (year month day : String) (dm : RollMap) : AttDoc :=
  match getVal doc year with
  | none => doc
  | some ym =>
    match getVal ym month with
    | none => doc
    | some mm => setVal doc year (setVal ym month (setVal mm day dm))

/-- The `/delete-attendance` handler.  400 on missing fields or invalid
month, 404 when no node exists for the exact date or when no supplied roll
number was present; otherwise persists the pruned day node and returns the
deleted subset.  `writeJSON` runs only on the success path. -/
def deleteAttendance (doc : AttDoc) (year month day : String) (rolls : List String) :
    AttDoc × Except Nat (List String) :=
  if year = "" ∨ month = "" ∨ day = "" then (doc, Except.error 400)
  else
    match monthNameToNumber month with
    | none => (doc, Except.error 400)
    | some _ =>
      match attDayLookup doc year month day with
      | none => (doc, Except.error 404)
      | some dm =>
        let res := delLoop (dm, []) rolls
        if res.2 = [] then (doc, Except.error 404)
        else (attDaySet doc year month day res.1, Except.ok res.2)

/-- Keys of the day node at a date (empty when the node is absent); JS
objects never hold duplicate keys, so reachable documents satisfy
`(dayKeys doc y m d).Nodup`. -/
def dayKeys (doc : AttDoc) (year month day : String) : List String :=
  keysOf ((attDayLookup doc year month day).getD [])

/-! ## Donation/fine ledger: year → month → rollNo → leaf -/

/-- A donation-ledger leaf: the legacy numeric running total, or the
extended `{donation, fine}` object whose two fields may independently be
absent. -/
inductive DonVal : Type
  | num (n : Int)
  | obj (donationField fineField : Option Int)
deriving DecidableEq

abbrev RollDon : Type := AMap DonVal
abbrev MonDon : Type := AMap RollDon
abbrev DonDoc : Type := AMap MonDon

def donLookup (doc : DonDoc) (year month roll : String) : Option DonVal :=
  (getVal doc year).bind (fun ym => (getVal ym month).bind (fun mm => getVal mm roll))

/-- The `if (typeof data[year][month][rollNo] !== "number") ... = 0` step
of the legacy updater: the stored number, or 0 when the leaf is absent or
not a number. -/
def legacyPrev : Option DonVal → Int
  | some (DonVal.num n) => n
  | _ => 0

/-- The numeric value the legacy updater reads at a coordinate: the stored
number, or 0 when the entry is absent or not a number. -/
def donPrevNum (doc : DonDoc) (year month roll : String) : Int :=
  legacyPrev (donLookup doc year month roll)

/-- The read-ensure-mutate-write skeleton shared by the donation
mutators: ensure the `year → month` path, read the leaf at the roll
number, replace it with `f` of the current (possibly absent) leaf, and
write the result back. -/
def donMutCore (doc : DonDoc) (year month roll : String) (f : Option DonVal → DonVal) :
    DonDoc :=
  let ym : MonDon := (getVal doc year).getD []
  let mm : RollDon := (getVal ym month).getD []
  setVal doc year (setVal ym month (setVal mm roll (f (getVal mm roll))))

/-- The legacy `/update-donations` handler (server.js).  Validates the
fields and the coerced amount, creates the path, resets a non-number leaf
to 0 (`typeof ... !== "number"`), then adds the amount.  Second component
is the success flag. -/
def updateDonations (doc : DonDoc) (year month roll : String) (amount : Option Int) :
    DonDoc × Bool :=
  if year = "" ∨ month = "" ∨ roll = "" ∨ amount.isNone then (doc, false)
  else
    (donMutCore doc year month roll
      (fun v => DonVal.num (legacyPrev v + amount.getD 0)),
     true)

/-- A sequence of accepted legacy accumulate calls on one coordinate. -/
def applyDon (doc : DonDoc) (year month roll : String) (amounts : List Int) : DonDoc :=
  amounts.foldl (fun d a => (updateDonations d year month roll (some a)).1) doc

/-- The `if (!data[year][month][rollNo]) ... = { donation: 0, fine: 0 }`
step of the extended updater: a falsy leaf (absent, or the number 0) is
re-initialized; a truthy leaf is kept. -/
def extLeafInit : Option DonVal → DonVal
  | none => DonVal.obj (some 0) (some 0)
  | some (DonVal.num k) => if k = 0 then DonVal.obj (some 0) (some 0) else DonVal.num k
  | some (DonVal.obj d f) => DonVal.obj d f

/-- The `if (typeof x[type] !== "number") x[type] = 0; x[type] += amount`
steps of the extended updater.  On an object leaf the targeted field is
defaulted to 0 when absent and then incremented.  On a truthy numeric
leaf both statements are property writes to a primitive number, which
sloppy-mode JS silently discards, so the leaf is left exactly as it was. -/
def extLeafAdd (ty : String) (a : Int) : DonVal → DonVal
  | DonVal.obj d f =>
    if ty = "donation" then DonVal.obj (some (d.getD 0 + a)) f
    else DonVal.obj d (some (f.getD 0 + a))
  | DonVal.num n => DonVal.num n

/-- The extended `/update-donations` handler (unnamed variant part_000).
Rejects a missing field, a NaN amount, or a type other than `"donation"`
or `"fine"`; otherwise initializes a falsy leaf and adds the amount to the
targeted field. -/
def updateDonationsExt (doc : DonDoc) (year month roll ty : String) (amount : Option Int) :
    DonDoc × Bool :=
  if year = "" ∨ month = "" ∨ roll = "" ∨ amount.isNone ∨ ty = "" then (doc, false)
  else if ty ≠ "donation" ∧ ty ≠ "fine" then (doc, false)
  else
    (donMutCore doc year month roll (fun v => extLeafAdd ty (amount.getD 0) (extLeafInit v)),
     true)

/-! ## The part_001 variant: roll_no → month → {amount, date, mode} -/

structure DonRec : Type where
  amount : Int
  date : String
  mode : String
deriving DecidableEq

abbrev Don001 : Type := AMap (AMap DonRec)

/-- The `/update-donations` handler of unnamed variant part_001.  All five
body fields are required to be truthy (so amount 0 is rejected); the month
record under the roll number is then assigned wholesale. -/
def updateDonations001 (doc : Don001) (roll month : String) (amount : Int)
    (date mode : String) : Don001 × Bool :=
  if roll = "" ∨ month = "" ∨ amount = 0 ∨ date = "" ∨ mode = "" then (doc, false)
  else
    let rm : AMap DonRec := (getVal doc roll).getD []
    (setVal doc roll (setVal rm month { amount := amount, date := date, mode := mode }), true)

def don001Amount (doc : Don001) (roll month : String) : Option Int :=
  ((getVal doc roll).bind (fun rm => getVal rm month)).map DonRec.amount

/-! ## Expense ledger: year → month → list of {amount, description} -/

structure Expense : Type where
  amount : Int
  description : String
deriving DecidableEq

abbrev MonExp : Type := AMap (List Expense)
abbrev ExpDoc : Type := AMap MonExp

def expMonthLookup (doc : ExpDoc) (year month : String) : Option (List Expense) :=
  (getVal doc year).bind (fun ym => getVal ym month)

/-- The `/delete-expense` handler.  400 on missing fields or a non-number
index, 404 when the year/month node is absent, 400 when the index is out
of bounds (without writing), otherwise `splice(index, 1)` and persist. -/
def deleteExpense (doc : ExpDoc) (year month : String) (index : Option Int) :
    ExpDoc × Option Nat :=
  if year = "" ∨ month = "" ∨ index.isNone then (doc, some 400)
  else
    match getVal doc year with
    | none => (doc, some 404)
    | some ym =>
      match getVal ym month with
      | none => (doc, some 404)
      | some lst =>
        let idx : Int := index.getD 0
        if idx < 0 ∨ (lst.length : Int) ≤ idx then (doc, some 400)
        else
          (setVal doc year
             (setVal ym month (lst.take idx.toNat ++ lst.drop (idx.toNat + 1))), none)

/-! ## Overall financial summary -/

structure Summary : Type where
  totalDonations : Int
  totalFines : Int
  totalExpenses : Int
  netAmount : Int
deriving DecidableEq

/-- Contribution of one donation-ledger leaf to `totalDonations`: a
numeric leaf counts whole, an object leaf contributes
`Number(value.donation || 0)` when the field is present. -/
def donPart : DonVal → Int
  | DonVal.num n => n
  | DonVal.obj d _ => match d with | some v => v | none => 0

/-- Contribution of one donation-ledger leaf to `totalFines`. -/
def finePart : DonVal → Int
  | DonVal.num _ => 0
  | DonVal.obj _ f => match f with | some v => v | none => 0

/-- The inner `for (const rollNo in ...)` loop of `/overall-summary`,
returning the (donations, fines) pair accumulated over one month node. -/
def rollTotals : RollDon → Int × Int
  | [] => (0, 0)
  | (_, v) :: rest =>
    let t := rollTotals rest
    match v with
    | DonVal.num n => (n + t.1, t.2)
    | DonVal.obj d f =>
      ((match d with | some x => x | none => 0) + t.1,
       (match f with | some x => x | none => 0) + t.2)

def monthTotals : MonDon → Int × Int
  | [] => (0, 0)
  | (_, rm) :: rest =>
    let a := rollTotals rm
    let b := monthTotals rest
    (a.1 + b.1, a.2 + b.2)

def donTotals : DonDoc → Int × Int
  | [] => (0, 0)
  | (_, mm) :: rest =>
    let a := monthTotals mm
    let b := donTotals rest
    (a.1 + b.1, a.2 + b.2)

/-- The `reduce((sum, exp) => sum + Number(exp.amount || 0), 0)` step. -/
def expListTotal : List Expense → Int
  | [] => 0
  | e :: rest => e.amount + expListTotal rest

def monthExpTotals : MonExp → Int
  | [] => 0
  | (_, lst) :: rest => expListTotal lst + monthExpTotals rest

def expTotal : ExpDoc → Int
  | [] => 0
  | (_, mm) :: rest => monthExpTotals mm + expTotal rest

/-- The `/overall-summary` handler: walk the whole donation tree summing
donations and fines (tolerating numeric and object leaves), sum all
expenses, and report `netAmount = totalDonations + totalFines - totalExpenses`. -/
def overallSummary (don : DonDoc) (exps : ExpDoc) : Summary :=
  let t := donTotals don
  let te := expTotal exps
  { totalDonations := t.1, totalFines := t.2, totalExpenses := te,
    netAmount := t.1 + t.2 - te }

/-- All donation-ledger leaves, flattened in document order. -/
def donLeaves (don : DonDoc) : List DonVal :=
  don.flatMap (fun ymp => ymp.2.flatMap (fun mmp => mmp.2.map Prod.snd))

/-- All expense amounts, flattened in document order. -/
def expLeaves (exps : ExpDoc) : List Int :=
  exps.flatMap (fun ymp => ymp.2.flatMap (fun mmp => mmp.2.map Expense.amount))

/-- Modelled from the spec: the source files expose only the overall
summary endpoint; the monthly financial summary the spec describes
(section 6, "financial summary (monthly/overall)") restricts the same
donation/fine/expense sums to a single (year, month) scope, with
`netAmount = totalDonations + totalFines - totalExpenses`. -/
def monthlySummary (don : DonDoc) (exps : ExpDoc) (year month : String) : Summary :=
  let rm : RollDon := ((getVal don year).bind (fun ym => getVal ym month)).getD []
  let lst : List Expense := (expMonthLookup exps year month).getD []
  let td := (rm.map (fun rp => donPart rp.2)).sum
  let tf := (rm.map (fun rp => finePart rp.2)).sum
  let te := (lst.map Expense.amount).sum
  { totalDonations := td, totalFines := tf, totalExpenses := te,
    netAmount := td + tf - te }

/-! ## Member soft delete -/

/-- A JSON scalar arriving in a request body: the `rollNo` field may be a
JSON number or a JSON string. -/
inductive JsVal : Type
  | num (n : Int)
  | str (s : String)
deriving DecidableEq

def truthyJs : JsVal → Bool
  | JsVal.num n => n ≠ 0
  | JsVal.str s => s ≠ ""

/-- JS `parseInt` on a string: skip leading spaces, take an optional sign
and the leading run of decimal digits; NaN (here `none`) when no digit
follows. -/
def parseIntStr (s : String) : Option Int :=
  let cs := s.toList.dropWhile (fun c => c = ' ')
  let sign : Int := match cs with | '-' :: _ => -1 | _ => 1
  let cs2 := match cs with
    | '-' :: rest => rest
    | '+' :: rest => rest
    | _ => cs
  let ds := cs2.takeWhile Char.isDigit
  if ds.isEmpty then none
  else some (sign * Int.ofNat (ds.foldl (fun a c => a * 10 + (c.toNat - 48)) 0))

/-- JS `parseInt` on a body value (a number is stringified first, which
for the integers modelled here gives the number back). -/
def parseIntJs : JsVal → Option Int
  | JsVal.num n => some n
  | JsVal.str s => parseIntStr s

/-- JS strict equality `x === v` where `x` is a number-or-NaN and `v` is a
raw body value: NaN equals nothing, and a number is never strictly equal
to a string. -/
def strictEqNumJs (x : Option Int) (v : JsVal) : Bool :=
  match x, v with
  | some a, JsVal.num b => a = b
  | _, _ => false

/-- JS strict equality between two number-or-NaN values. -/
def strictEqNumNum : Option Int → Option Int → Bool
  | some a, some b => a = b
  | _, _ => false

structure Member : Type where
  roll_no : JsVal
  name : String
  last_name : String
  phone_no : String
  address : String
deriving DecidableEq

/-- `members.find(m => parseInt(m.roll_no) === roll)` followed by blanking
the found member's personal fields in place; `none` when no member matches. -/
def blankFirst : List Member → Option Int → Option (List Member)
  | [], _ => none
  | mem :: rest, roll =>
    if strictEqNumNum (parseIntJs mem.roll_no) roll then
      some ({ mem with name := "", last_name := "", phone_no := "", address := "" } :: rest)
    else (blankFirst rest roll).map (fun l => mem :: l)

abbrev LegacyRollDon : Type := AMap Int
abbrev LegacyMonDon : Type := AMap LegacyRollDon
abbrev LegacyDon : Type := AMap LegacyMonDon

/-- The inner `for (let roll in donations[year][month])` loop of
`/delete-member`: the guard is `parseInt(roll) === rollNo`, comparing the
parsed key against the raw request value (the coerced `roll` constant is
shadowed by the loop variable). -/
def removeRollEntries (rm : LegacyRollDon) (rollNo : JsVal) : LegacyRollDon × Int :=
  match rm with
  | [] => ([], 0)
  | (k, v) :: rest =>
    let res := removeRollEntries rest rollNo
    if strictEqNumJs (parseIntStr k) rollNo then (res.1, v + res.2)
    else ((k, v) :: res.1, res.2)

def scanRemoveMonths (mm : LegacyMonDon) (rollNo : JsVal) : LegacyMonDon × Int :=
  match mm with
  | [] => ([], 0)
  | (k, rm) :: rest =>
    let r1 := removeRollEntries rm rollNo
    let r2 := scanRemoveMonths rest rollNo
    ((k, r1.1) :: r2.1, r1.2 + r2.2)

def scanRemoveYears (don : LegacyDon) (rollNo : JsVal) : LegacyDon × Int :=
  match don with
  | [] => ([], 0)
  | (k, mm) :: rest =>
    let r1 := scanRemoveMonths mm rollNo
    let r2 := scanRemoveYears rest rollNo
    ((k, r1.1) :: r2.1, r1.2 + r2.2)

/-- The `/delete-member` handler: 400 on a falsy roll number, 404 when no
member's parsed roll number strictly equals the parsed request value;
otherwise blank the member's personal fields, scan the whole donation
ledger removing entries whose key satisfies `parseInt(key) === rollNo`,
and set `donatedRemoved` to `(donatedRemoved || 0) + totalRemoved`.
Returns the new members list, donation ledger and `donatedRemoved` value. -/
def deleteMember (members : List Member) (don : LegacyDon) (donatedRemoved : Option Int)
    (rollNo : JsVal) : Except Nat (List Member × LegacyDon × Int) :=
  if ¬ truthyJs rollNo then Except.error 400
  else
    match blankFirst members (parseIntJs rollNo) with
    | none => Except.error 404
    | some members2 =>
      let scan := scanRemoveYears don rollNo
      Except.ok (members2, scan.1, donatedRemoved.getD 0 + scan.2)

/-! ## Helper lemmas about the association-map operations -/

theorem getVal_setVal_self {α : Type} (m : AMap α) (k : String) (v : α) :
    getVal (setVal m k v) k = some v := by
  induction m with
  | nil => simp [getVal, setVal]
  | cons p rest ih =>
    obtain ⟨a, b⟩ := p
    by_cases h : a = k
    · simp [setVal, getVal, h]
    · simp [setVal, getVal, h, ih]

theorem getVal_setVal_ne {α : Type} (m : AMap α) {k k2 : String} (v : α) (h : k2 ≠ k) :
    getVal (setVal m k v) k2 = getVal m k2 := by
  induction m with
  | nil => simp [getVal, setVal, Ne.symm h]
  | cons p rest ih =>
    obtain ⟨a, b⟩ := p
    by_cases ha : a = k
    · subst ha
      simp [setVal, getVal, Ne.symm h, ih]
    · by_cases hb : a = k2
      · simp [setVal, getVal, ha, hb, h]
      · simp [setVal, getVal, ha, hb, ih, h]

theorem setVal_eq_self {α : Type} {m : AMap α} {k : String} {v : α}
    (h : getVal m k = some v) : setVal m k v = m := by
  induction m with
  | nil => simp [getVal] at h
  | cons p rest ih =>
    obtain ⟨a, b⟩ := p
    by_cases ha : a = k
    · subst ha
      simp [getVal] at h
      simp [setVal, h]
    · simp [getVal, ha] at h
      simp [setVal, ha, ih h]

theorem getVal_delVal_ne {α : Type} (m : AMap α) {k k2 : String} (h : k2 ≠ k) :
    getVal (delVal m k) k2 = getVal m k2 := by
  induction m with
  | nil => simp [delVal]
  | cons p rest ih =>
    obtain ⟨a, b⟩ := p
    by_cases ha : a = k
    · subst ha
      simp [delVal, getVal, Ne.symm h]
    · by_cases hb : a = k2
      · simp [delVal, getVal, ha, hb, h]
      · simp [delVal, getVal, ha, hb, ih, h]

theorem getVal_of_not_mem_keys {α : Type} {m : AMap α} {k : String}
    (h : k ∉ keysOf m) : getVal m k = none := by
  induction m with
  | nil => simp [getVal]
  | cons p rest ih =>
    simp only [keysOf, List.map_cons, List.mem_cons, not_or] at h
    simp [getVal, Ne.symm h.1, ih h.2]

theorem getVal_delVal_self {α : Type} {m : AMap α} {k : String}
    (h : (keysOf m).Nodup) : getVal (delVal m k) k = none := by
  induction m with
  | nil => simp [delVal, getVal]
  | cons p rest ih =>
    obtain ⟨a, b⟩ := p
    simp only [keysOf, List.map_cons, List.nodup_cons] at h
    by_cases ha : a = k
    · subst ha
      simp only [delVal, if_pos rfl]
      exact getVal_of_not_mem_keys h.1
    · simp [delVal, getVal, ha, ih h.2]

theorem keysOf_setVal {α : Type} (m : AMap α) (k : String) (v : α) :
    keysOf (setVal m k v) = if k ∈ keysOf m then keysOf m else keysOf m ++ [k] := by
  induction m with
  | nil => simp [setVal, keysOf]
  | cons p rest ih =>
    obtain ⟨a, b⟩ := p
    by_cases ha : a = k
    · subst ha
      simp [setVal, keysOf]
    · simp only [setVal, ha, if_false, keysOf, List.map_cons]
      rw [keysOf] at ih
      rw [ih]
      by_cases hm : k ∈ List.map Prod.fst rest
      · simp [keysOf, hm, Ne.symm ha]
      · simp [keysOf, hm, Ne.symm ha]

theorem keysOf_setVal_nodup {α : Type} {m : AMap α} (k : String) (v : α)
    (h : (keysOf m).Nodup) : (keysOf (setVal m k v)).Nodup := by
  rw [keysOf_setVal]
  by_cases hm : k ∈ keysOf m
  · simp [hm, h]
  · simp [hm, List.nodup_append, h]

theorem getVal_getD_bind {α : Type} (o : Option (AMap α)) (k : String) :
    getVal (o.getD []) k = o.bind (fun m => getVal m k) := by
  cases o with
  | none => simp [getVal]
  | some m => simp

set_option maxHeartbeats 1000000 in
theorem monthName_roundtrip {m : String} {n : Nat} (h : monthNameToNumber m = some n) :
    (monthNumberToName n).getD "" = m := by
  unfold monthNameToNumber at h
  split_ifs at h with h1 h2 h3 h4 h5 h6 h7 h8 h9 h10 h11 h12 <;>
    simp only [Option.some.injEq] at h <;>
    subst_vars <;> rfl

theorem setVal_setVal {α : Type} (m : AMap α) (k : String) (v w : α) :
    setVal (setVal m k v) k w = setVal m k w := by
  induction m with
  | nil => simp [setVal]
  | cons p rest ih =>
    obtain ⟨a, b⟩ := p
    by_cases ha : a = k
    · simp [setVal, ha]
    · simp [setVal, ha, ih]

theorem getVal_getD_two {α : Type} (o : Option (AMap (AMap α))) (k1 k2 : String) :
    getVal ((getVal (o.getD []) k1).getD []) k2
      = o.bind (fun m1 => (getVal m1 k1).bind (fun m2 => getVal m2 k2)) := by
  cases o with
  | none => simp [getVal]
  | some m1 => simp [getVal_getD_bind]

theorem attDayLookup_attMutCore_self (doc : AttDoc) (y m d : String) (g : RollMap → RollMap) :
    attDayLookup (attMutCore doc y m d g) y m d
      = some (g ((attDayLookup doc y m d).getD [])) := by
  unfold attMutCore
  show attDayLookup (setVal doc y (setVal _ m (setVal _ d _))) y m d = _
  unfold attDayLookup
  rw [getVal_setVal_self]
  simp only [Option.some_bind]
  rw [getVal_setVal_self]
  simp only [Option.some_bind]
  rw [getVal_setVal_self]
  rw [getVal_getD_two]

theorem attDayLookup_attMutCore_frame (doc : AttDoc) (y m d : String) (g : RollMap → RollMap)
    (y2 m2 d2 : String) (h : ¬(y2 = y ∧ m2 = m ∧ d2 = d)) :
    attDayLookup (attMutCore doc y m d g) y2 m2 d2 = attDayLookup doc y2 m2 d2 := by
  unfold attMutCore attDayLookup
  by_cases h1 : y2 = y
  · subst h1
    rw [getVal_setVal_self]
    simp only [Option.some_bind]
    by_cases h2 : m2 = m
    · subst h2
      rw [getVal_setVal_self]
      simp only [Option.some_bind]
      have h3 : d2 ≠ d := by tauto
      rw [getVal_setVal_ne _ _ h3]
      rw [getVal_getD_two]
    · rw [getVal_setVal_ne _ _ h2]
      rw [getVal_getD_bind]
      cases getVal doc y2 <;> simp
  · rw [getVal_setVal_ne _ _ h1]

theorem attMutCore_attMutCore (doc : AttDoc) (y m d : String) (g1 g2 : RollMap → RollMap) :
    attMutCore (attMutCore doc y m d g1) y m d g2
      = attMutCore doc y m d (fun dm => g2 (g1 dm)) := by
  unfold attMutCore
  simp only [getVal_setVal_self, Option.getD_some, setVal_setVal]

theorem donLookup_donMutCore_self (doc : DonDoc) (y m r : String) (f : Option DonVal → DonVal) :
    donLookup (donMutCore doc y m r f) y m r = some (f (donLookup doc y m r)) := by
  unfold donMutCore donLookup
  rw [getVal_setVal_self]
  simp only [Option.some_bind]
  rw [getVal_setVal_self]
  simp only [Option.some_bind]
  rw [getVal_setVal_self]
  rw [getVal_getD_two]

theorem donMutCore_eq_self (doc : DonDoc) (y m r : String) (f : Option DonVal → DonVal)
    (v : DonVal) (hex : donLookup doc y m r = some v) (hf : f (some v) = v) :
    donMutCore doc y m r f = doc := by
  unfold donLookup at hex
  cases hy : getVal doc y with
  | none => rw [hy] at hex; simp at hex
  | some ym =>
    rw [hy] at hex
    simp only [Option.some_bind] at hex
    cases hm2 : getVal ym m with
    | none => rw [hm2] at hex; simp at hex
    | some mm =>
      rw [hm2] at hex
      simp only [Option.some_bind] at hex
      unfold donMutCore
      rw [hy]
      simp only [Option.getD_some]
      rw [hm2]
      simp only [Option.getD_some]
      rw [hex, hf, setVal_eq_self hex, setVal_eq_self hm2, setVal_eq_self hy]

/-! ## Legacy donation updater lemmas -/

theorem updateDonations_eq (doc : DonDoc) (y m r : String) (a : Int)
    (hy : y ≠ "") (hm : m ≠ "") (hr : r ≠ "") :
    updateDonations doc y m r (some a)
      = (donMutCore doc y m r (fun v => DonVal.num (legacyPrev v + a)), true) := by
  have hcond : ¬(y = "" ∨ m = "" ∨ r = "" ∨ (some a : Option Int).isNone = true) := by
    simp [hy, hm, hr]
  unfold updateDonations
  rw [if_neg hcond]
  rfl

theorem donLookup_updateDonations (doc : DonDoc) (y m r : String) (a : Int)
    (hy : y ≠ "") (hm : m ≠ "") (hr : r ≠ "") :
    donLookup (updateDonations doc y m r (some a)).1 y m r
      = some (DonVal.num (donPrevNum doc y m r + a)) := by
  rw [updateDonations_eq doc y m r a hy hm hr]
  exact donLookup_donMutCore_self doc y m r (fun v => DonVal.num (legacyPrev v + a))

theorem donPrevNum_updateDonations (doc : DonDoc) (y m r : String) (a : Int)
    (hy : y ≠ "") (hm : m ≠ "") (hr : r ≠ "") :
    donPrevNum (updateDonations doc y m r (some a)).1 y m r = donPrevNum doc y m r + a := by
  unfold donPrevNum
  rw [donLookup_updateDonations doc y m r a hy hm hr]
  rfl

theorem donLookup_applyDon (doc : DonDoc) (y m r : String) (amts : List Int)
    (hy : y ≠ "") (hm : m ≠ "") (hr : r ≠ "") (hne : amts ≠ []) :
    donLookup (applyDon doc y m r amts) y m r
      = some (DonVal.num (donPrevNum doc y m r + amts.sum)) := by
  induction amts generalizing doc with
  | nil => cases hne rfl
  | cons a rest ih =>
    by_cases hrest : rest = []
    · subst hrest
      show donLookup (updateDonations doc y m r (some a)).1 y m r = _
      rw [donLookup_updateDonations doc y m r a hy hm hr]
      simp
    · show donLookup (applyDon (updateDonations doc y m r (some a)).1 y m r rest) y m r = _
      rw [ih (updateDonations doc y m r (some a)).1 hrest]
      rw [donPrevNum_updateDonations doc y m r a hy hm hr]
      have harith : donPrevNum doc y m r + a + rest.sum
          = donPrevNum doc y m r + (a :: rest).sum := by
        rw [List.sum_cons]
        ring
      rw [harith]

/-- Claim C2 counterexample: in the part_001 variant (cited by the claim),
an accepted accumulate-donation call does NOT add a delta to the stored
value: accumulating 500 and then 300 on the same (rollNo, month) coordinate
stores 300, not 500 + 300 — the second call absolutely overwrites the
record. -/
theorem updateDonations001_overwrites :
    don001Amount
      (updateDonations001
        (updateDonations001 [] "7" "March" 500 "2024-03-01" "cash").1
        "7" "March" 300 "2024-03-02" "cash").1
      "7" "March" = some 300
    ∧ (300 : Int) ≠ 500 + 300 := by
  constructor
  · rfl
  · decide

/-- Claim C2 (amended): in the legacy server.js variant, every accepted
accumulate-donation call stores at the targeted (year, month, rollNo)
coordinate a numeric leaf equal to the previous numeric value there (0
when the entry is absent or not a number) plus the supplied amount, and
never an absolute overwrite, so the per-coordinate numeric value is
monotonically non-decreasing for non-negative amounts.  The part_001
variant instead overwrites its (rollNo, month) record wholesale. -/
theorem updateDonations_adds_delta (doc : DonDoc) (y m r : String) (a : Int)
    (hy : y ≠ "") (hm : m ≠ "") (hr : r ≠ "") :
    (updateDonations doc y m r (some a)).2 = true
    ∧ donLookup (updateDonations doc y m r (some a)).1 y m r
        = some (DonVal.num (donPrevNum doc y m r + a))
    ∧ (0 ≤ a → donPrevNum doc y m r ≤ donPrevNum (updateDonations doc y m r (some a)).1 y m r) := by
  refine ⟨?_, donLookup_updateDonations doc y m r a hy hm hr, ?_⟩
  · rw [updateDonations_eq doc y m r a hy hm hr]
  · intro ha
    rw [donPrevNum_updateDonations doc y m r a hy hm hr]
    omega

/-- Witness for claim C2's amended theorem at a concrete accepted call:
adding 300 on a coordinate currently holding 500 stores 800. -/
theorem updateDonations_adds_delta_witness :
    ("2024" : String) ≠ ""
    ∧ donLookup (updateDonations [("2024", [("March", [("7", DonVal.num 500)])])]
        "2024" "March" "7" (some 300)).1 "2024" "March" "7"
      = some (DonVal.num (donPrevNum [("2024", [("March", [("7", DonVal.num 500)])])]
          "2024" "March" "7" + 300)) := by
  refine ⟨by decide, ?_⟩
  exact (updateDonations_adds_delta [("2024", [("March", [("7", DonVal.num 500)])])]
    "2024" "March" "7" 300 (by decide) (by decide) (by decide)).2.1

/-- Claim C3: starting from a donation ledger with no entry at the
coordinate, a finite sequence of accepted legacy accumulate calls with
amounts a1..an leaves the stored total equal to the sum of the amounts,
independently of the order of the calls. -/
theorem donation_sequence_sum (doc : DonDoc) (y m r : String) (amts : List Int)
    (hy : y ≠ "") (hm : m ≠ "") (hr : r ≠ "") (h0 : donLookup doc y m r = none) :
    (amts ≠ [] → donLookup (applyDon doc y m r amts) y m r = some (DonVal.num amts.sum))
    ∧ (∀ amts2 : List Int, amts2.Perm amts →
        donLookup (applyDon doc y m r amts2) y m r
          = donLookup (applyDon doc y m r amts) y m r) := by
  have hz : donPrevNum doc y m r = 0 := by
    unfold donPrevNum
    rw [h0]
    rfl
  constructor
  · intro hne
    rw [donLookup_applyDon doc y m r amts hy hm hr hne, hz, zero_add]
  · intro amts2 hperm
    by_cases hne : amts = []
    · subst hne
      have h2 : amts2 = [] := List.Perm.eq_nil hperm
      subst h2
      rfl
    · have hne2 : amts2 ≠ [] := by
        intro h2
        subst h2
        exact hne (List.Perm.eq_nil hperm.symm)
      rw [donLookup_applyDon doc y m r amts2 hy hm hr hne2,
        donLookup_applyDon doc y m r amts hy hm hr hne,
        List.Perm.sum_eq hperm]

/-- Witness for claim C3: the spec's concrete scenario — accumulating 500
then 300 on (2024, March, roll 7) from an empty ledger stores 800. -/
theorem donation_sequence_sum_witness :
    donLookup (applyDon [] "2024" "March" "7" [500, 300]) "2024" "March" "7"
      = some (DonVal.num 800) := by
  have h := (donation_sequence_sum [] "2024" "March" "7" [500, 300]
    (by decide) (by decide) (by decide) rfl).1 (by decide)
  have hs : ([500, 300] : List Int).sum = 800 := by decide
  rw [hs] at h
  exact h

/-- Claim C8: the extended accumulate handler rejects (with no write)
whenever the amount fails numeric coercion or the kind discriminator is
anything other than exactly "donation" or "fine", and accepts whenever the
kind is "donation" or "fine", the amount is numeric, and the scoping
fields are present. -/
theorem updateDonationsExt_validation (doc : DonDoc) (y m r ty : String)
    (amount : Option Int) :
    ((amount = none ∨ (ty ≠ "donation" ∧ ty ≠ "fine")) →
      updateDonationsExt doc y m r ty amount = (doc, false))
    ∧ (y ≠ "" → m ≠ "" → r ≠ "" → (ty = "donation" ∨ ty = "fine") →
        ∀ a : Int, amount = some a →
        (updateDonationsExt doc y m r ty amount).2 = true) := by
  constructor
  · intro h
    unfold updateDonationsExt
    rcases h with hA | hT
    · subst hA
      simp
    · by_cases hc : y = "" ∨ m = "" ∨ r = "" ∨ amount.isNone = true ∨ ty = ""
      · rw [if_pos hc]
      · rw [if_neg hc, if_pos hT]
  · intro hy hm hr hty a hA
    subst hA
    have hty2 : ty ≠ "" := by
      rcases hty with h | h <;> subst h <;> decide
    have hc : ¬(y = "" ∨ m = "" ∨ r = "" ∨ (some a : Option Int).isNone = true ∨ ty = "") := by
      simp [hy, hm, hr, hty2]
    have ht : ¬(ty ≠ "donation" ∧ ty ≠ "fine") := by tauto
    unfold updateDonationsExt
    rw [if_neg hc, if_neg ht]

/-- Witness for claim C8: a call with an invalid kind "gift" is rejected
leaving the ledger unchanged, and a call with kind "fine" and numeric
amount is accepted. -/
theorem updateDonationsExt_validation_witness :
    updateDonationsExt [] "2024" "March" "7" "gift" (some 50) = ([], false)
    ∧ (updateDonationsExt [] "2024" "March" "7" "fine" (some 100)).2 = true := by
  constructor
  · exact (updateDonationsExt_validation [] "2024" "March" "7" "gift" (some 50)).1
      (Or.inr (by decide))
  · exact (updateDonationsExt_validation [] "2024" "March" "7" "fine" (some 100)).2
      (by decide) (by decide) (by decide) (Or.inr rfl) 100 rfl

/-- Claim C10: an accepted extended accumulate call whose target
coordinate holds a truthy legacy numeric leaf leaves the donation ledger
completely unchanged while still reporting success — the leaf is not
re-initialized, and the sloppy-mode field assignments on the primitive
number have no effect on the stored tree. -/
theorem updateDonationsExt_numeric_leaf_noop (doc : DonDoc) (y m r ty : String) (a n : Int)
    (hy : y ≠ "") (hm : m ≠ "") (hr : r ≠ "") (hty : ty = "donation" ∨ ty = "fine")
    (hleaf : donLookup doc y m r = some (DonVal.num n)) (hn : n ≠ 0) :
    updateDonationsExt doc y m r ty (some a) = (doc, true) := by
  have hty2 : ty ≠ "" := by
    rcases hty with h | h <;> subst h <;> decide
  have hc : ¬(y = "" ∨ m = "" ∨ r = "" ∨ (some a : Option Int).isNone = true ∨ ty = "") := by
    simp [hy, hm, hr, hty2]
  have ht : ¬(ty ≠ "donation" ∧ ty ≠ "fine") := by tauto
  unfold updateDonationsExt
  rw [if_neg hc, if_neg ht]
  have hcore : donMutCore doc y m r
      (fun v => extLeafAdd ty ((some a : Option Int).getD 0) (extLeafInit v)) = doc := by
    apply donMutCore_eq_self doc y m r _ (DonVal.num n) hleaf
    simp [extLeafInit, extLeafAdd, hn]
  rw [hcore]

/-- Witness for claim C10: with a ledger holding the legacy numeric leaf
500 at (2024, March, 7), an accepted fine of 100 returns success and the
exact same ledger. -/
theorem updateDonationsExt_numeric_leaf_noop_witness :
    updateDonationsExt [("2024", [("March", [("7", DonVal.num 500)])])]
      "2024" "March" "7" "fine" (some 100)
      = ([("2024", [("March", [("7", DonVal.num 500)])])], true) :=
  updateDonationsExt_numeric_leaf_noop [("2024", [("March", [("7", DonVal.num 500)])])]
    "2024" "March" "7" "fine" 100 500
    (by decide) (by decide) (by decide) (Or.inr rfl) rfl (by decide)

/-- Claim C5: the delete-expense operation 404s when the year/month node
is absent, rejects an out-of-bounds zero-based index with a 400 leaving
the document unchanged, and otherwise removes exactly the element at the
index: one element shorter, earlier elements at their old positions,
later elements shifted down by one. -/
theorem deleteExpense_contract (doc : ExpDoc) (y m : String) (idx : Int)
    (hy : y ≠ "") (hm : m ≠ "") :
    (expMonthLookup doc y m = none → deleteExpense doc y m (some idx) = (doc, some 404))
    ∧ (∀ lst : List Expense, expMonthLookup doc y m = some lst →
        (idx < 0 ∨ (lst.length : Int) ≤ idx) →
        deleteExpense doc y m (some idx) = (doc, some 400))
    ∧ (∀ lst : List Expense, expMonthLookup doc y m = some lst →
        0 ≤ idx → idx < (lst.length : Int) →
        (deleteExpense doc y m (some idx)).2 = none
        ∧ ∃ lst2 : List Expense,
            expMonthLookup (deleteExpense doc y m (some idx)).1 y m = some lst2
            ∧ lst2.length + 1 = lst.length
            ∧ (∀ j : Nat, j < idx.toNat → lst2[j]? = lst[j]?)
            ∧ (∀ j : Nat, idx.toNat ≤ j → lst2[j]? = lst[j + 1]?)) := by
  have hcond : ¬(y = "" ∨ m = "" ∨ (some idx : Option Int).isNone = true) := by
    simp [hy, hm]
  refine ⟨?_, ?_, ?_⟩
  · intro hnone
    unfold expMonthLookup at hnone
    unfold deleteExpense
    rw [if_neg hcond]
    cases hgy : getVal doc y with
    | none => rfl
    | some ym =>
      rw [hgy] at hnone
      simp only [Option.some_bind] at hnone
      simp only [hnone]
  · intro lst hsome hbound
    unfold expMonthLookup at hsome
    cases hgy : getVal doc y with
    | none =>
      rw [hgy] at hsome
      simp at hsome
    | some ym =>
      rw [hgy] at hsome
      simp only [Option.some_bind] at hsome
      unfold deleteExpense
      rw [if_neg hcond]
      simp only [hgy, hsome, Option.getD_some]
      rw [if_pos hbound]
  · intro lst hsome h0 hlen
    unfold expMonthLookup at hsome
    cases hgy : getVal doc y with
    | none =>
      rw [hgy] at hsome
      simp at hsome
    | some ym =>
      rw [hgy] at hsome
      simp only [Option.some_bind] at hsome
      have hnb : ¬(idx < 0 ∨ (lst.length : Int) ≤ idx) := by omega
      have hres : deleteExpense doc y m (some idx)
          = (setVal doc y (setVal ym m (lst.take idx.toNat ++ lst.drop (idx.toNat + 1))),
             none) := by
        unfold deleteExpense
        rw [if_neg hcond]
        simp only [hgy, hsome, Option.getD_some]
        rw [if_neg hnb]
      have hi : idx.toNat < lst.length := by omega
      have hmin : min idx.toNat lst.length = idx.toNat := Nat.min_eq_left (Nat.le_of_lt hi)
      refine ⟨by rw [hres], ⟨lst.take idx.toNat ++ lst.drop (idx.toNat + 1), ?_, ?_, ?_, ?_⟩⟩
      · rw [hres]
        unfold expMonthLookup
        rw [getVal_setVal_self]
        simp only [Option.some_bind]
        rw [getVal_setVal_self]
      · rw [List.length_append, List.length_take, List.length_drop, hmin]
        omega
      · intro j hj
        rw [List.getElem?_append_left, List.getElem?_take_of_lt hj]
        rw [List.length_take, hmin]
        exact hj
      · intro j hj
        have hlt : (lst.take idx.toNat).length ≤ j := by
          rw [List.length_take, hmin]
          exact hj
        rw [List.getElem?_append_right hlt, List.getElem?_drop]
        rw [List.length_take, hmin]
        congr 1
        omega

/-- Witness for claim C5: deleting index 1 from a three-element March 2024
expense list succeeds and leaves the other two elements in order. -/
theorem deleteExpense_contract_witness :
    (deleteExpense [("2024", [("March",
        [Expense.mk 10 "tea", Expense.mk 20 "rice", Expense.mk 30 "gas"])])]
      "2024" "March" (some 1)).2 = none
    ∧ ∃ lst2 : List Expense,
        expMonthLookup (deleteExpense [("2024", [("March",
            [Expense.mk 10 "tea", Expense.mk 20 "rice", Expense.mk 30 "gas"])])]
          "2024" "March" (some 1)).1 "2024" "March" = some lst2
        ∧ lst2.length + 1
            = ([Expense.mk 10 "tea", Expense.mk 20 "rice", Expense.mk 30 "gas"] : List Expense).length
        ∧ (∀ j : Nat, j < (1 : Int).toNat →
            lst2[j]? = ([Expense.mk 10 "tea", Expense.mk 20 "rice",
              Expense.mk 30 "gas"] : List Expense)[j]?)
        ∧ (∀ j : Nat, (1 : Int).toNat ≤ j →
            lst2[j]? = ([Expense.mk 10 "tea", Expense.mk 20 "rice",
              Expense.mk 30 "gas"] : List Expense)[j + 1]?) :=
  (deleteExpense_contract [("2024", [("March",
      [Expense.mk 10 "tea", Expense.mk 20 "rice", Expense.mk 30 "gas"])])]
    "2024" "March" 1 (by decide) (by decide)).2.2
    [Expense.mk 10 "tea", Expense.mk 20 "rice", Expense.mk 30 "gas"] rfl (by decide) (by decide)

/-! ## Summary lemmas -/

theorem rollTotals_eq (rm : RollDon) :
    rollTotals rm
      = (((rm.map Prod.snd).map donPart).sum, ((rm.map Prod.snd).map finePart).sum) := by
  induction rm with
  | nil => rfl
  | cons p rest ih =>
    obtain ⟨k, v⟩ := p
    cases v with
    | num n => simp [rollTotals, donPart, finePart, ih]
    | obj d f =>
      cases d <;> cases f <;> simp [rollTotals, donPart, finePart, ih]

theorem monthTotals_eq (mm : MonDon) :
    monthTotals mm
      = (((mm.flatMap (fun p => p.2.map Prod.snd)).map donPart).sum,
         ((mm.flatMap (fun p => p.2.map Prod.snd)).map finePart).sum) := by
  induction mm with
  | nil => rfl
  | cons p rest ih =>
    obtain ⟨k, rm⟩ := p
    simp [monthTotals, rollTotals_eq, ih, List.flatMap_cons, List.map_append,
      List.sum_append]

theorem donTotals_eq (don : DonDoc) :
    donTotals don
      = (((donLeaves don).map donPart).sum, ((donLeaves don).map finePart).sum) := by
  induction don with
  | nil => rfl
  | cons p rest ih =>
    obtain ⟨k, mm⟩ := p
    simp [donTotals, monthTotals_eq, ih, donLeaves, List.flatMap_cons, List.map_append,
      List.sum_append]

theorem expListTotal_eq (lst : List Expense) :
    expListTotal lst = (lst.map Expense.amount).sum := by
  induction lst with
  | nil => rfl
  | cons e rest ih => simp [expListTotal, ih]

theorem expTotal_eq (exps : ExpDoc) :
    expTotal exps = (expLeaves exps).sum := by
  have hm : ∀ mm : MonExp, monthExpTotals mm
      = (mm.flatMap (fun p => p.2.map Expense.amount)).sum := by
    intro mm
    induction mm with
    | nil => rfl
    | cons p rest ih =>
      obtain ⟨k, lst⟩ := p
      simp [monthExpTotals, expListTotal_eq, ih, List.flatMap_cons, List.sum_append]
  induction exps with
  | nil => rfl
  | cons p rest ih =>
    obtain ⟨k, mm⟩ := p
    simp [expTotal, hm, ih, expLeaves, List.flatMap_cons, List.sum_append]

/-- Claim C9: the overall financial summary computes totalDonations as the
sum over all ledger coordinates of numeric leaves plus present donation
fields of object leaves, totalFines as the sum of present fine fields
(tolerating mixed leaf shapes), and netAmount as
totalDonations + totalFines - totalExpenses; and the (spec-modelled)
monthly summary of a month with no donations and no expenses is all-zero
with netAmount 0. -/
theorem overallSummary_spec (don : DonDoc) (exps : ExpDoc) :
    overallSummary don exps
      = { totalDonations := ((donLeaves don).map donPart).sum,
          totalFines := ((donLeaves don).map finePart).sum,
          totalExpenses := (expLeaves exps).sum,
          netAmount := ((donLeaves don).map donPart).sum
            + ((donLeaves don).map finePart).sum - (expLeaves exps).sum }
    ∧ (∀ y m : String,
        ((getVal don y).bind (fun ym => getVal ym m)).getD [] = [] →
        (expMonthLookup exps y m).getD [] = [] →
        monthlySummary don exps y m
          = { totalDonations := 0, totalFines := 0, totalExpenses := 0, netAmount := 0 }) := by
  constructor
  · unfold overallSummary
    rw [donTotals_eq, expTotal_eq]
  · intro y m h1 h2
    unfold monthlySummary
    rw [h1, h2]
    rfl

/-- Witness for claim C9's monthly clause: April 2024 has no donations and
no expenses in the given ledgers, and its monthly summary is all-zero. -/
theorem overallSummary_spec_witness :
    monthlySummary [("2024", [("March", [("7", DonVal.num 800)])])] [] "2024" "April"
      = { totalDonations := 0, totalFines := 0, totalExpenses := 0, netAmount := 0 } :=
  (overallSummary_spec [("2024", [("March", [("7", DonVal.num 800)])])] []).2
    "2024" "April" rfl rfl

/-! ## Attendance handler lemmas -/

theorem updateAttendance_eq (doc : AttDoc) (y m d : String) (rolls : List String) (mn : Nat)
    (hy : y ≠ "") (hm : monthNameToNumber m = some mn) (hd : d ≠ "") :
    updateAttendance doc y m d rolls
      = (attMutCore doc y ((monthNumberToName mn).getD "") d
          (fun dm => markRolls dm rolls), true) := by
  have hm2 : m ≠ "" := by
    intro h
    rw [h] at hm
    exact Option.noConfusion hm
  have hcond : ¬(y = "" ∨ m = "" ∨ d = "") := by simp [hy, hm2, hd]
  unfold updateAttendance
  rw [if_neg hcond, hm]

/-- Claim C7: marking the same roll number present twice yields a ledger
state identical to the state after marking it once — the second mark is a
no-op in effect. -/
theorem updateAttendance_idempotent (doc : AttDoc) (y m d r : String) (mn : Nat)
    (hy : y ≠ "") (hm : monthNameToNumber m = some mn) (hd : d ≠ "") :
    updateAttendance (updateAttendance doc y m d [r]).1 y m d [r]
      = ((updateAttendance doc y m d [r]).1, true) := by
  rw [updateAttendance_eq doc y m d [r] mn hy hm hd]
  rw [updateAttendance_eq _ y m d [r] mn hy hm hd]
  rw [attMutCore_attMutCore]
  have hfun : (fun dm : RollMap => markRolls (markRolls dm [r]) [r])
      = (fun dm : RollMap => markRolls dm [r]) := by
    funext dm
    show setVal (setVal dm r "present") r "present" = setVal dm r "present"
    exact setVal_setVal dm r "present" "present"
  rw [hfun]

/-- Witness for claim C7 at a concrete mark request. -/
theorem updateAttendance_idempotent_witness :
    updateAttendance (updateAttendance [] "2024" "March" "5" ["7"]).1 "2024" "March" "5" ["7"]
      = ((updateAttendance [] "2024" "March" "5" ["7"]).1, true) :=
  updateAttendance_idempotent [] "2024" "March" "5" "7" 3 (by decide) rfl (by decide)

theorem attDaySet_attMutCore (doc : AttDoc) (y m d : String) (g : RollMap → RollMap)
    (dm2 : RollMap) :
    attDaySet (attMutCore doc y m d g) y m d dm2 = attMutCore doc y m d (fun _ => dm2) := by
  unfold attMutCore attDaySet
  simp only [getVal_setVal_self, Option.getD_some, setVal_setVal]

theorem deleteAttendance_attMutCore (doc : AttDoc) (y m d r : String) (mn : Nat)
    (hy : y ≠ "") (hm : monthNameToNumber m = some mn) (hd : d ≠ "") :
    deleteAttendance (attMutCore doc y m d (fun dm => markRolls dm [r])) y m d [r]
      = (attMutCore doc y m d
          (fun _ => delVal (setVal ((attDayLookup doc y m d).getD []) r "present") r),
         Except.ok [r]) := by
  have hm2 : m ≠ "" := by
    intro h
    rw [h] at hm
    exact Option.noConfusion hm
  have hcond : ¬(y = "" ∨ m = "" ∨ d = "") := by simp [hy, hm2, hd]
  have hdl : delLoop (markRolls ((attDayLookup doc y m d).getD []) [r], []) [r]
      = (delVal (setVal ((attDayLookup doc y m d).getD []) r "present") r, [r]) := by
    show delLoop (setVal ((attDayLookup doc y m d).getD []) r "present", []) [r] = _
    unfold delLoop
    rw [getVal_setVal_self]
    simp [truthyOpt, delLoop]
  unfold deleteAttendance
  rw [if_neg hcond, hm]
  rw [attDayLookup_attMutCore_self]
  simp only [hdl]
  rw [if_neg (by simp : ¬([r] : List String) = [])]
  rw [attDaySet_attMutCore]

/-- Claim C6: marking a roll number present and then immediately unmarking
it removes exactly that entry — the resulting ledger has no entry at the
marked coordinate and agrees with the pre-mark ledger at every other
(year, month, day, rollNo) coordinate, siblings included. -/
theorem mark_then_unmark (doc : AttDoc) (y m d r : String) (mn : Nat)
    (hy : y ≠ "") (hm : monthNameToNumber m = some mn) (hd : d ≠ "")
    (hk : (dayKeys doc y m d).Nodup) :
    ∃ doc2 : AttDoc,
      deleteAttendance (updateAttendance doc y m d [r]).1 y m d [r]
        = (doc2, Except.ok [r])
      ∧ attLookup doc2 y m d r = none
      ∧ ∀ y2 m2 d2 r2 : String, ¬(y2 = y ∧ m2 = m ∧ d2 = d ∧ r2 = r) →
          attLookup doc2 y2 m2 d2 r2 = attLookup doc y2 m2 d2 r2 := by
  have hmn2 : (monthNumberToName mn).getD "" = m := monthName_roundtrip hm
  rw [updateAttendance_eq doc y m d [r] mn hy hm hd]
  show ∃ doc2 : AttDoc,
      deleteAttendance (attMutCore doc y ((monthNumberToName mn).getD "") d
        (fun dm => markRolls dm [r])) y m d [r] = (doc2, Except.ok [r]) ∧ _
  rw [hmn2]
  rw [deleteAttendance_attMutCore doc y m d r mn hy hm hd]
  refine ⟨attMutCore doc y m d
      (fun _ => delVal (setVal ((attDayLookup doc y m d).getD []) r "present") r),
    rfl, ?_, ?_⟩
  · unfold attLookup
    rw [attDayLookup_attMutCore_self]
    simp only [Option.some_bind]
    apply getVal_delVal_self
    exact keysOf_setVal_nodup r "present" hk
  · intro y2 m2 d2 r2 hne
    by_cases hdate : y2 = y ∧ m2 = m ∧ d2 = d
    · obtain ⟨h1, h2, h3⟩ := hdate
      subst h1; subst h2; subst h3
      have hr2 : r2 ≠ r := by tauto
      unfold attLookup
      rw [attDayLookup_attMutCore_self]
      simp only [Option.some_bind]
      rw [getVal_delVal_ne _ hr2, getVal_setVal_ne _ _ hr2]
      rw [getVal_getD_bind]
    · unfold attLookup
      rw [attDayLookup_attMutCore_frame doc y m d _ y2 m2 d2 hdate]

/-- Witness for claim C6 at a concrete ledger in which roll 9 is already
present on the date and roll 7 is marked then unmarked. -/
theorem mark_then_unmark_witness :
    (dayKeys [("2024", [("March", [("5", [("9", "present")])])])] "2024" "March" "5").Nodup
    ∧ ∃ doc2 : AttDoc,
        deleteAttendance
          (updateAttendance [("2024", [("March", [("5", [("9", "present")])])])]
            "2024" "March" "5" ["7"]).1 "2024" "March" "5" ["7"]
          = (doc2, Except.ok ["7"])
        ∧ attLookup doc2 "2024" "March" "5" "7" = none
        ∧ ∀ y2 m2 d2 r2 : String,
            ¬(y2 = "2024" ∧ m2 = "March" ∧ d2 = "5" ∧ r2 = "7") →
            attLookup doc2 y2 m2 d2 r2
              = attLookup [("2024", [("March", [("5", [("9", "present")])])])] y2 m2 d2 r2 :=
  ⟨by decide,
   mark_then_unmark [("2024", [("March", [("5", [("9", "present")])])])]
     "2024" "March" "5" "7" 3 (by decide) rfl (by decide) (by decide)⟩

theorem delLoop_snd (rolls : List String) (dm : RollMap) (del : List String)
    (h : rolls.Nodup) :
    (delLoop (dm, del) rolls).2
      = del ++ rolls.filter (fun r => truthyOpt (getVal dm r)) := by
  induction rolls generalizing dm del with
  | nil => simp [delLoop]
  | cons r rest ih =>
    have hnd : rest.Nodup := (List.nodup_cons.mp h).2
    have hni : r ∉ rest := (List.nodup_cons.mp h).1
    by_cases hp : truthyOpt (getVal dm r) = true
    · simp only [delLoop]
      rw [if_pos hp]
      rw [ih (delVal dm r) (del ++ [r]) hnd]
      rw [List.filter_cons]
      simp only [hp, if_true]
      have hcg : rest.filter (fun x => truthyOpt (getVal (delVal dm r) x))
          = rest.filter (fun x => truthyOpt (getVal dm x)) := by
        apply List.filter_congr
        intro x hx
        have hxr : x ≠ r := fun he : x = r => hni (he ▸ hx)
        rw [getVal_delVal_ne dm hxr]
      rw [hcg]
      simp
    · simp only [delLoop]
      rw [if_neg hp]
      rw [ih dm del hnd]
      rw [List.filter_cons]
      simp [hp]

/-- Claim C4: under valid scoping fields, unmark-present 404s exactly when
no attendance node exists for the exact date or none of the supplied roll
numbers is present; otherwise it succeeds and reports exactly the subset
of the supplied roll numbers that were present before the call; and on
every error path the persisted attendance ledger is unchanged. -/
theorem deleteAttendance_contract (doc : AttDoc) (y m d : String) (rolls : List String)
    (mn : Nat) (hy : y ≠ "") (hm : monthNameToNumber m = some mn) (hd : d ≠ "")
    (hnd : rolls.Nodup) :
    ((deleteAttendance doc y m d rolls).2 = Except.error 404 ↔
      (attDayLookup doc y m d = none ∨ ∀ r ∈ rolls, isPresent doc y m d r = false))
    ∧ (¬(attDayLookup doc y m d = none ∨ ∀ r ∈ rolls, isPresent doc y m d r = false) →
        ∃ doc2 : AttDoc, deleteAttendance doc y m d rolls
          = (doc2, Except.ok (rolls.filter (fun r => isPresent doc y m d r))))
    ∧ (∀ e : Nat, (deleteAttendance doc y m d rolls).2 = Except.error e →
        (deleteAttendance doc y m d rolls).1 = doc) := by
  have hm2 : m ≠ "" := by
    intro h
    rw [h] at hm
    exact Option.noConfusion hm
  have hcond : ¬(y = "" ∨ m = "" ∨ d = "") := by simp [hy, hm2, hd]
  cases hday : attDayLookup doc y m d with
  | none =>
    have hres : deleteAttendance doc y m d rolls = (doc, Except.error 404) := by
      unfold deleteAttendance
      rw [if_neg hcond, hm, hday]
    refine ⟨?_, ?_, ?_⟩
    · rw [hres]
      simp
    · intro hcontra
      exact absurd (Or.inl rfl) hcontra
    · intro e he
      rw [hres]
  | some dm =>
    have hpres : ∀ r : String, isPresent doc y m d r = truthyOpt (getVal dm r) := by
      intro r
      unfold isPresent attLookup
      rw [hday]
      rfl
    have hsnd : (delLoop (dm, []) rolls).2
        = rolls.filter (fun r => truthyOpt (getVal dm r)) := by
      rw [delLoop_snd rolls dm [] hnd]
      simp
    have hfeq : rolls.filter (fun r => isPresent doc y m d r)
        = rolls.filter (fun r => truthyOpt (getVal dm r)) := by
      apply List.filter_congr
      intro x hx
      rw [hpres]
    by_cases hemp : rolls.filter (fun r => truthyOpt (getVal dm r)) = []
    · have hres : deleteAttendance doc y m d rolls = (doc, Except.error 404) := by
        unfold deleteAttendance
        rw [if_neg hcond, hm, hday]
        simp only [hsnd]
        rw [if_pos hemp]
      have hR : ∀ r ∈ rolls, isPresent doc y m d r = false := by
        intro r hr
        rw [hpres]
        have hh := List.filter_eq_nil_iff.mp hemp r hr
        simpa using hh
      refine ⟨?_, ?_, ?_⟩
      · rw [hres]
        exact ⟨fun _ => Or.inr hR, fun _ => rfl⟩
      · intro hcontra
        exact absurd (Or.inr hR) hcontra
      · intro e he
        rw [hres]
    · have hres : deleteAttendance doc y m d rolls
          = (attDaySet doc y m d (delLoop (dm, []) rolls).1,
             Except.ok (rolls.filter (fun r => truthyOpt (getVal dm r)))) := by
        unfold deleteAttendance
        rw [if_neg hcond, hm, hday]
        simp only [hsnd]
        rw [if_neg hemp]
      refine ⟨?_, ?_, ?_⟩
      · rw [hres]
        constructor
        · intro habs
          exact Except.noConfusion habs
        · intro habs
          rcases habs with h1 | h2
          · exact Option.noConfusion h1
          · exact absurd (List.filter_eq_nil_iff.mpr (fun a ha => by
              have hh := h2 a ha
              rw [hpres] at hh
              simp [hh])) hemp
      · intro hcontra
        exact ⟨attDaySet doc y m d (delLoop (dm, []) rolls).1, by rw [hres, hfeq]⟩
      · intro e he
        rw [hres] at he
        exact Except.noConfusion he

/-- Witness for claim C4: removing the mix of roll 7 (present) and roll 9
(absent) from the date node succeeds and reports exactly the present
subset. -/
theorem deleteAttendance_contract_witness :
    (["7", "9"] : List String).Nodup
    ∧ ∃ doc2 : AttDoc,
        deleteAttendance [("2024", [("March", [("5", [("7", "present")])])])]
          "2024" "March" "5" ["7", "9"]
          = (doc2, Except.ok ((["7", "9"] : List String).filter
              (fun r => isPresent [("2024", [("March", [("5", [("7", "present")])])])]
                "2024" "March" "5" r))) := by
  refine ⟨by decide, ?_⟩
  apply (deleteAttendance_contract [("2024", [("March", [("5", [("7", "present")])])])]
    "2024" "March" "5" ["7", "9"] 3 (by decide) rfl (by decide) (by decide)).2.1
  intro habs
  rcases habs with h1 | h2
  · exact Option.noConfusion h1
  · have hh := h2 "7" (by decide)
    revert hh
    decide

/-- Claim C1 fails on the code: soft-deleting member 7 with the roll
number supplied as the JSON string "7" blanks the member's personal
fields but removes NO donation entries and adds 0 to `donatedRemoved`,
even though the ledger holds 500 under roll key "7".  The scan guard
`parseInt(roll) === rollNo` compares the parsed key (a number) against
the raw request value (a string) — the numerically coerced `roll`
constant computed above the loop is shadowed by the loop variable — and
strict equality between a number and a string is always false. -/
theorem deleteMember_string_rollNo_eval :
    deleteMember [Member.mk (JsVal.str "7") "Alice" "K" "99" "Street"]
      [("2024", [("March", [("7", 500)])])] none (JsVal.str "7")
      = Except.ok ([Member.mk (JsVal.str "7") "" "" "" ""],
          [("2024", [("March", [("7", 500)])])], 0) := by
  rfl
